import Mathlib

/-!
Verification of the goauto watch-batch-dispatch pipeline.

Shallow embedding of `pipeline.go` (Pipeline, Watch, WatchRecursive, recDir,
batchRun, queryWorkflow, Stop) and of the task implementations in the second
source file (goPrjTask.Run, goLintTask.Run).

Modelling conventions:
- a cleaned absolute filesystem path is a `List String` of its components
  (so `/a/b` is `["a", "b"]`); component lists make path containment and
  separator questions explicit;
- the fsnotify event stream, the batching clock tick and the stop signal are
  one explicit input trace (`List BatchInput`) fed to the batcher loop, which
  makes the three-way `select` a function of the schedule;
- an `io.Writer` sink and the scratch `bytes.Buffer` are byte streams
  (`String`), with a write modelled as appending to the stream;
- running an external command (`exec.Command(...).Run()`) is modelled by a
  `CmdResult` record carrying what the command wrote to its captured stdout,
  what it wrote to stderr, and its error status.
-/

namespace Goauto

/-- fsnotify operation bitmask values (fsnotify.v1): Create = 1. -/
def fsnotifyCreate : Nat := 1

/-- fsnotify operation bitmask values (fsnotify.v1): Write = 2. -/
def fsnotifyWrite : Nat := 2

/-- fsnotify operation bitmask values (fsnotify.v1): Rename = 8. -/
def fsnotifyRename : Nat := 8

/-- `dirOps = fsnotify.Create | fsnotify.Rename` from pipeline.go. -/
def dirOps : Nat := fsnotifyCreate ||| fsnotifyRename

/-- An fsnotify event: affected path (components of its cleaned absolute
path) and operation bitmask, mirroring `fsnotify.Event{Name, Op}`. -/
structure FsEvent where
  name : List String
  op : Nat
  deriving DecidableEq

/-- One input to the batcher's three-way `select`: a raw event arriving on
`watcher.Events`, a tick of the 300ms batching timer, or the `done` signal
sent by `Stop`. A `List BatchInput` is the schedule the Go runtime would
deliver to the `select` loop. -/
inductive BatchInput where
  | ev : FsEvent → BatchInput
  | tick : BatchInput
  | stop : BatchInput
  deriving DecidableEq

/-- Embedding of `batchRun` (pipeline.go): consume the input trace with the
accumulated event slice `acc`, returning the list of batches sent on
`p.events`. A raw event is appended to the accumulator; on a tick an empty
accumulator is kept (`continue`) while a non-empty one is emitted as one
batch and reset; the `done` signal breaks the loop. -/
def batchRun : List BatchInput → List FsEvent → List (List FsEvent)
  | [], _ => []
  | BatchInput.ev e :: rest, acc => batchRun rest (acc ++ [e])
  | BatchInput.tick :: rest, acc =>
      if acc.isEmpty then batchRun rest acc else acc :: batchRun rest []
  | BatchInput.stop :: _, _ => []

/-- The Pipeline state relevant to the watch-set claims: the `Watches` slice,
whether the fsnotify watcher has been created by `Start` (`watcher != nil`),
the sequence of `watcher.Add` subscription calls made to the live watcher,
and the `recDirs` map of recursive roots to their ignoreHidden flag (as an
association list fixing one iteration order). -/
structure Pipeline where
  watches : List (List String)
  watcherLive : Bool
  watcherAdds : List (List String)
  recDirs : List (List String × Bool)
  deriving DecidableEq

/-- The body of `Watch` after `AbsPath` has succeeded with resolved path `d`:
return `d` unchanged if already watched, otherwise append it to `Watches`
and, when the watcher is live, subscribe it (`p.watcher.Add(d)`). -/
def watchResolved (p : Pipeline) (d : List String) : Pipeline × List String :=
  if d ∈ p.watches then (p, d)
  else
    ({ p with
        watches := p.watches ++ [d],
        watcherAdds :=
          if p.watcherLive then p.watcherAdds ++ [d] else p.watcherAdds }, d)

/-- Embedding of `Watch` (pipeline.go). `AbsPath` is a helper defined outside
the embedded sources, so path resolution is a parameter: it either fails with
an error or yields the resolved absolute path. On failure `Watch` returns the
error with no mutation (the verbose log line touches no pipeline state). -/
def watch (absPath : List String → Except String (List String)) (p : Pipeline)
    (watchDir : List String) : Pipeline × Except String (List String) :=
  match absPath watchDir with
  | Except.error e => (p, Except.error e)
  | Except.ok d => ((watchResolved p d).1, Except.ok (watchResolved p d).2)

/-- Modelled from the spec: the hidden classifier `IsHidden` is a helper
outside the embedded sources; the spec only says it "classifies a path as
hidden", with hidden directories exemplified by dot-directories such as
`.git`. A name is hidden when its first character is a dot. -/
def isHiddenName (s : String) : Bool :=
  match s.data with
  | [] => false
  | c :: _ => c == '.'

/-- `IsHidden` applied to a full path (as `recDir` does with `e.Name`):
classify by the base name, i.e. the last component. -/
def isHiddenPath (p : List String) : Bool :=
  match p.getLast? with
  | none => false
  | some n => isHiddenName n

/-- A filesystem subtree as `filepath.Walk` observes it: a named regular
file or a named directory with its children (in the lexical order Walk
uses; no claim depends on that order). -/
inductive FSTree : Type where
  | file : String → FSTree
  | dir : String → List FSTree → FSTree

/-- Name of the root entry of a subtree (`filepath.Base` of the walk root). -/
def rootName : FSTree → String
  | FSTree.file n => n
  | FSTree.dir n _ => n

mutual

/-- The directories `filepath.Walk` hands to `p.Watch` inside
`WatchRecursive`, for the subtree `t` whose parent directory is `parent`:
files are ignored (`info.IsDir()` gate), a hidden directory is skipped with
its whole subtree (`filepath.SkipDir`) when `ignoreHidden` is set, and every
surviving directory (the root included) is listed in visit order. -/
def walkDirs (ignoreHidden : Bool) (parent : List String) : FSTree → List (List String)
  | FSTree.file _ => []
  | FSTree.dir n kids =>
      if isHiddenName n && ignoreHidden then []
      else (parent ++ [n]) :: walkForest ignoreHidden (parent ++ [n]) kids

/-- Walk a list of sibling subtrees in order. -/
def walkForest (ignoreHidden : Bool) (parent : List String) : List FSTree → List (List String)
  | [] => []
  | t :: rest => walkDirs ignoreHidden parent t ++ walkForest ignoreHidden parent rest

end

mutual

/-- All directory nodes of a subtree, each given as the chain of entry names
from the subtree root (inclusive) down to it, in the same visit order as the
walk but with no hidden-filtering. -/
def dirChains : FSTree → List (List String)
  | FSTree.file _ => []
  | FSTree.dir n kids => [n] :: (chainsForest kids).map (fun c => n :: c)

/-- Directory chains of a list of sibling subtrees. -/
def chainsForest : List FSTree → List (List String)
  | [] => []
  | t :: rest => dirChains t ++ chainsForest rest

end

/-- Go map assignment `recDirs[d] = b` on the association-list model. -/
def setRec : List (List String × Bool) → List String → Bool → List (List String × Bool)
  | [], d, b => [(d, b)]
  | (k, v) :: rest, d, b =>
      if k = d then (d, b) :: rest else (k, v) :: setRec rest d b

/-- Embedding of `WatchRecursive` (pipeline.go) after `AbsPath` has resolved
the argument: the resolved root is `parent ++ [rootName t]` where `t` is the
filesystem entry at that path. Record the root in `recDirs` with its
ignoreHidden policy, then walk the subtree and `Watch` every surviving
directory (paths produced by the walk are already absolute, so `AbsPath`
resolves them to themselves and `Watch` reduces to `watchResolved`). -/
def watchRecursive (p : Pipeline) (parent : List String) (t : FSTree)
    (ignoreHidden : Bool) : Pipeline :=
  let p1 : Pipeline :=
    { p with recDirs := setRec p.recDirs (parent ++ [rootName t]) ignoreHidden }
  (walkDirs ignoreHidden parent t).foldl (fun q w => (watchResolved q w).1) p1

/-- The relative path Go's `filepath.Rel base targ` computes for two cleaned
absolute paths given as component lists: drop the common prefix, then climb
with `..` for each remaining base component and descend into the remaining
target components. -/
def relParts : List String → List String → List String
  | [], t => t
  | _ :: bs, [] => List.replicate (bs.length + 1) ".."
  | b :: bs, c :: ts =>
      if b = c then relParts bs ts
      else List.replicate (bs.length + 1) ".." ++ c :: ts

/-- Embedding of Go `filepath.Rel` restricted to the inputs `recDir` feeds
it: two cleaned absolute Unix paths (recursive roots come from `AbsPath`;
event names come from fsnotify, which joins them onto the absolute watched
directories). On such inputs Go's `Rel` never returns an error — it fails
only when exactly one argument is relative, on a Windows volume mismatch, or
when the cleaned base still contains `..`, none of which can arise here — so
the embedding always succeeds, with the computed relative path. -/
def filepathRel (base targ : List String) : Option (List String) :=
  some (relParts base targ)

/-- The root-selection loop of `recDir` (pipeline.go lines 110-118): iterate
`recDirs`; skip a hidden-ignoring root when the event path is hidden
(`h && iHidden`); at the first remaining root for which `filepath.Rel`
succeeds, call `WatchRecursive(e.Name, iHidden)` and return. The result is
the ignoreHidden flag of the one `WatchRecursive` call made, or `none` when
no call is made. -/
def recDirSelect (h : Bool) (name : List String) :
    List (List String × Bool) → Option Bool
  | [] => none
  | (dir, iHidden) :: rest =>
      if h && iHidden then recDirSelect h name rest
      else if (filepathRel dir name).isSome then some iHidden
      else recDirSelect h name rest

/-- Embedding of `recDir` (pipeline.go): return unless the event operation is
contained in `dirOps = Create|Rename` and the event path currently is a
directory on disk (`os.Stat` succeeded and `IsDir`, given as `isDir`);
otherwise run the root-selection loop. The result is the ignoreHidden flag
of the `WatchRecursive(e.Name, _)` call made, `none` when no rescan runs. -/
def recDirCall (recDirs : List (List String × Bool)) (op : Nat) (isDir : Bool)
    (name : List String) : Option Bool :=
  if dirOps &&& op ≠ op then none
  else if !isDir then none
  else recDirSelect (isHiddenPath name) name recDirs

/-- Modelled from the spec: the `TaskInfo` record is declared outside the
embedded sources; per the spec it carries the originating path, a mutable
target path, shared output/error sinks, a reusable scratch buffer and a
verbosity flag — exactly the fields the embedded code reads and writes
(`Src`, `Target`, `Buf`, `Tout`, `Terr`, `Verbose`). Sinks and the buffer
are byte streams. -/
structure TaskInfo where
  src : List String
  target : List String
  buf : String
  tout : String
  terr : String
  verbose : Bool
  deriving DecidableEq

/-- A registered workflow as the dispatch loop sees it (the `Workflower`
interface): an opaque match predicate over (path, operation) and an opaque
task chain returning an error or not. -/
structure Workflow where
  matchFn : List String → Nat → Bool
  runFn : TaskInfo → Option String

/-- The `TaskInfo` literal `queryWorkflow` constructs for one event:
`&TaskInfo{Src: fpath, Tout: p.Wout, Terr: p.Werr, Verbose: p.Verbose}` —
target and buffer take their zero values. -/
def mkTaskInfo (wout werr : String) (verbose : Bool) (fpath : List String) : TaskInfo :=
  { src := fpath, target := [], buf := "", tout := wout, terr := werr, verbose := verbose }

/-- Embedding of `queryWorkflow` (pipeline.go): walk the registered
workflows in order; for each whose `Match(fpath, op)` holds, build a fresh
`TaskInfo` and call `Run`, whose returned error is ignored. The result
records every call made: the workflow, the context it received and the
error `Run` returned (discarded by the loop). -/
def queryWorkflow (wout werr : String) (verbose : Bool) (fpath : List String)
    (op : Nat) : List Workflow → List (Workflow × TaskInfo × Option String)
  | [] => []
  | wf :: rest =>
      if wf.matchFn fpath op then
        (wf, mkTaskInfo wout werr verbose fpath,
          wf.runFn (mkTaskInfo wout werr verbose fpath)) ::
          queryWorkflow wout werr verbose fpath op rest
      else queryWorkflow wout werr verbose fpath op rest

/-- The dispatch loop body of `Start` (pipeline.go lines 199-203) for one
received batch: each event of the batch, in order, goes through
`queryWorkflow` (the concurrent `recDir` rescan touches no dispatch state).
The result is the concatenated call record. -/
def dispatchBatch (wout werr : String) (verbose : Bool) (wfs : List Workflow) :
    List FsEvent → List (Workflow × TaskInfo × Option String)
  | [] => []
  | e :: rest =>
      queryWorkflow wout werr verbose e.name e.op wfs ++
        dispatchBatch wout werr verbose wfs rest

/-- What running the external command contributed, as observed by the task:
bytes written to the captured stdout (wired to `info.Buf`), bytes written to
stderr (wired to `info.Terr`), and the error `cmd.Run()` returned. -/
structure CmdResult where
  out : String
  errOut : String
  err : Option String
  deriving DecidableEq

/-- `strings.Title` restricted to the single lowercase words it is applied
to (`test`, `vet`, `build`, `install`, ...): capitalize the first letter. -/
def titleStr (s : String) : String :=
  match s.data with
  | [] => s
  | c :: cs => String.mk (c.toUpper :: cs)

/-- A go-project task value: the go subcommand and its extra arguments. -/
structure goPrjTask where
  gocmd : String
  args : List String
  deriving DecidableEq

/-- Embedding of `goPrjTask.Run`: set `Target = Src`, reset the buffer,
print the running line, run `go <gocmd> <args> <dir>` with stdout captured
into the buffer and stderr wired to the error sink, and on success print
"ok"; the deferred `info.Buf.WriteTo(info.Tout)` flushes (and drains) the
captured output to the output sink on both exits. `GoRelSrcDir` is a helper
outside the embedded sources and is a parameter. -/
def goPrjTask.Run (gt : goPrjTask) (goRelSrcDir : List String → String)
    (res : CmdResult) (info : TaskInfo) : TaskInfo × Option String :=
  let dir := goRelSrcDir info.src
  let i1 : TaskInfo := { info with target := info.src, buf := "" }
  let i2 : TaskInfo :=
    { i1 with tout := i1.tout ++ "Go " ++ titleStr gt.gocmd ++ " ... " ++ dir ++ "\n" }
  let i3 : TaskInfo := { i2 with buf := i2.buf ++ res.out, terr := i2.terr ++ res.errOut }
  match res.err with
  | some e => ({ i3 with tout := i3.tout ++ i3.buf, buf := "" }, some e)
  | none =>
      let i4 : TaskInfo := { i3 with tout := i3.tout ++ "ok\n" }
      ({ i4 with tout := i4.tout ++ i4.buf, buf := "" }, none)

/-- A golint task value: the extra golint arguments. -/
structure goLintTask where
  args : List String
  deriving DecidableEq

/-- The `fmt.Fprintln(info.Tout, "Go Lint", lt.args, "...", dir)` line:
`fmt` renders the argument slice as `[a b ...]`. -/
def lintHeader (args : List String) (dir : String) : String :=
  "Go Lint [" ++ String.intercalate " " args ++ "] ... " ++ dir ++ "\n"

/-- Embedding of `goLintTask.Run`: set `Target = Src`, reset the buffer,
print the header, run `golint <args> <dir>` with stdout captured into the
buffer; if the command itself failed return its error; if it succeeded but
wrote anything (`info.Buf.Len() > 0`) return the error "FAIL"; only a
successful, silent run prints "ok". The deferred flush drains the buffer to
the output sink on every exit. -/
def goLintTask.Run (lt : goLintTask) (goRelSrcDir : List String → String)
    (res : CmdResult) (info : TaskInfo) : TaskInfo × Option String :=
  let dir := goRelSrcDir info.src
  let i1 : TaskInfo := { info with target := info.src, buf := "" }
  let i2 : TaskInfo := { i1 with tout := i1.tout ++ lintHeader lt.args dir }
  let i3 : TaskInfo := { i2 with buf := i2.buf ++ res.out, terr := i2.terr ++ res.errOut }
  match res.err with
  | some e => ({ i3 with tout := i3.tout ++ i3.buf, buf := "" }, some e)
  | none =>
      if 0 < i3.buf.length then
        ({ i3 with tout := i3.tout ++ i3.buf, buf := "" }, some "FAIL")
      else
        let i4 : TaskInfo := { i3 with tout := i3.tout ++ "ok\n" }
        ({ i4 with tout := i4.tout ++ i4.buf, buf := "" }, none)

/-! Theorems. -/

/-- Feeding a run of raw events into the batcher appends them, in arrival
order, to the accumulator. -/
theorem batchRun_events (es : List FsEvent) :
    ∀ (rest : List BatchInput) (acc : List FsEvent),
      batchRun (es.map BatchInput.ev ++ rest) acc = batchRun rest (acc ++ es) := by
  induction es with
  | nil => intro rest acc; simp
  | cons e es ih =>
      intro rest acc
      simp only [List.map_cons, List.cons_append, batchRun, List.append_eq]
      rw [ih, List.append_assoc, List.singleton_append]

/-- C5: at each tick boundary the batcher emits nothing when the accumulated
sequence is empty and otherwise emits exactly one batch equal to the
accumulated sequence, resetting the accumulator; in particular `n` tick
windows with zero raw events produce zero batches. -/
theorem batcher_tick_boundary :
    (∀ (rest : List BatchInput) (acc : List FsEvent),
      batchRun (BatchInput.tick :: rest) acc =
        if acc.isEmpty then batchRun rest acc else acc :: batchRun rest []) ∧
    (∀ n : Nat, batchRun (List.replicate n BatchInput.tick) [] = []) := by
  constructor
  · intro rest acc; rfl
  · intro n
    induction n with
    | zero => rfl
    | succ n ih => simpa [List.replicate_succ, batchRun] using ih

/-- C6: raw events arriving within one coalescing window come out as exactly
one batch preserving arrival order; batches of consecutive windows are
emitted in tick order and never merged or reordered across windows. -/
theorem batcher_window_order (e1 e2 : List FsEvent) (rest : List BatchInput)
    (h1 : e1 ≠ []) (h2 : e2 ≠ []) :
    batchRun (e1.map BatchInput.ev ++ BatchInput.tick ::
        (e2.map BatchInput.ev ++ BatchInput.tick :: rest)) [] =
      e1 :: e2 :: batchRun rest [] := by
  rw [batchRun_events, List.nil_append]
  have s1 : batchRun (BatchInput.tick ::
      (e2.map BatchInput.ev ++ BatchInput.tick :: rest)) e1 =
      e1 :: batchRun (e2.map BatchInput.ev ++ BatchInput.tick :: rest) [] := by
    simp [batchRun, List.isEmpty_iff, h1]
  rw [s1, batchRun_events, List.nil_append]
  simp [batchRun, List.isEmpty_iff, h2]

/-- C6 witness: the window `[A, B]` followed by a tick, then the window `[C]`
followed by a tick, yields exactly the two batches `[[A, B], [C]]`. -/
theorem batcher_window_order_witness :
    batchRun [BatchInput.ev ⟨["a"], 2⟩, BatchInput.ev ⟨["b"], 2⟩, BatchInput.tick,
        BatchInput.ev ⟨["c"], 2⟩, BatchInput.tick] [] =
      [[⟨["a"], 2⟩, ⟨["b"], 2⟩], [⟨["c"], 2⟩]] := by
  have h := batcher_window_order [⟨["a"], 2⟩, ⟨["b"], 2⟩] [⟨["c"], 2⟩] []
    (by decide) (by decide)
  simpa using h

/-- C7: once the stop signal is consumed the batcher loop terminates: the
batches of a trace are unaffected by anything after the first stop, and from
the stop on nothing more is emitted — the in-flight partial window is
dropped, not flushed. -/
theorem batcher_stop_terminal :
    ∀ (pre rest : List BatchInput) (acc : List FsEvent),
      batchRun (pre ++ BatchInput.stop :: rest) acc =
        batchRun (pre ++ [BatchInput.stop]) acc ∧
      batchRun (BatchInput.stop :: rest) acc = [] := by
  intro pre
  induction pre with
  | nil => intro rest acc; exact ⟨rfl, rfl⟩
  | cons i pre ih =>
      intro rest acc
      refine ⟨?_, rfl⟩
      cases i with
      | ev e =>
          simpa only [List.cons_append, batchRun] using (ih rest (acc ++ [e])).1
      | tick =>
          simp only [List.cons_append, batchRun]
          by_cases h : acc.isEmpty
          · simpa [h] using (ih rest acc).1
          · simpa [h] using congrArg (acc :: ·) (ih rest []).1
      | stop => rfl

/-- C2: `Watch` is idempotent — when two calls resolve to the same absolute
directory `d`, the second call returns the existing resolved path and leaves
the whole pipeline state unchanged, and the watch list holds exactly one
entry for `d` (given the source invariant that it held at most one before). -/
theorem watch_idempotent (absPath : List String → Except String (List String))
    (p : Pipeline) (a b d : List String)
    (ha : absPath a = Except.ok d) (hb : absPath b = Except.ok d)
    (hnd : p.watches.count d ≤ 1) :
    watch absPath (watch absPath p a).1 b = ((watch absPath p a).1, Except.ok d) ∧
    (watch absPath p a).1.watches.count d = 1 := by
  have hp1 : (watch absPath p a).1 = (watchResolved p d).1 := by
    simp [watch, ha]
  by_cases hm : d ∈ p.watches
  · have hres : watchResolved p d = (p, d) := by simp [watchResolved, hm]
    have hcount : p.watches.count d = 1 := by
      have := List.count_pos_iff.mpr hm
      omega
    rw [hp1, hres]
    refine ⟨?_, hcount⟩
    simp [watch, hb, hres]
  · rw [hp1]
    set q := (watchResolved p d).1 with hq
    have hres : q.watches = p.watches ++ [d] := by
      rw [hq]; simp [watchResolved, hm]
    have hmem : d ∈ q.watches := by
      rw [hres]; exact List.mem_append_right _ (List.mem_singleton.mpr rfl)
    have hcount : q.watches.count d = 1 := by
      rw [hres, List.count_append, List.count_eq_zero.mpr hm]
      simp
    refine ⟨?_, hcount⟩
    have hstep : watchResolved q d = (q, d) := by
      simp only [watchResolved, if_pos hmem]
    simp [watch, hb, hstep]

/-- C2 witness: watching `p` then `q`, both resolving to `/w`, on an empty
pipeline leaves one entry for `/w` and the second call changes nothing. -/
theorem watch_idempotent_witness :
    watch (fun _ => Except.ok ["w"])
        (watch (fun _ => Except.ok ["w"]) ⟨[], false, [], []⟩ ["p"]).1 ["q"] =
      ((watch (fun _ => Except.ok ["w"]) ⟨[], false, [], []⟩ ["p"]).1, Except.ok ["w"]) ∧
    (watch (fun _ => Except.ok ["w"]) ⟨[], false, [], []⟩ ["p"]).1.watches.count ["w"] = 1 :=
  watch_idempotent (fun _ => Except.ok ["w"]) ⟨[], false, [], []⟩ ["p"] ["q"] ["w"]
    rfl rfl (by decide)

/-- C3: `Watch` is atomic on failure — when path resolution fails, the
resolution error is returned and the pipeline is returned unchanged: no
entry is added to `Watches` and no subscription is made on the watcher. -/
theorem watch_error_no_mutation (absPath : List String → Except String (List String))
    (p : Pipeline) (a : List String) (e : String) (h : absPath a = Except.error e) :
    watch absPath p a = (p, Except.error e) := by
  simp [watch, h]

/-- C3 witness: a failing resolver leaves a concrete non-empty pipeline
exactly as it was and surfaces the error. -/
theorem watch_error_no_mutation_witness :
    watch (fun _ => Except.error "no such dir") ⟨[["r"]], true, [["r"]], [(["r"], true)]⟩
        ["x"] =
      (⟨[["r"]], true, [["r"]], [(["r"], true)]⟩, Except.error "no such dir") :=
  watch_error_no_mutation (fun _ => Except.error "no such dir")
    ⟨[["r"]], true, [["r"]], [(["r"], true)]⟩ ["x"] "no such dir" rfl

/-- C1 (code bug): the claim requires a rescan exactly when the event path
lies under some recursive root by true path containment, but `recDir` tests
containment with `filepath.Rel(dir, e.Name) == nil`, which succeeds for any
two absolute paths. Concretely, with the single recursive root `/a` and a
directory-creation event at `/b` — which is not under `/a` — the code still
calls `WatchRecursive("/b", false)`. -/
theorem recDir_rescans_uncontained :
    recDirCall [(["a"], false)] fsnotifyCreate true ["b"] = some false ∧
    (["a"] : List String).isPrefixOf ["b"] = false := by
  constructor
  · rfl
  · rfl

/-- Filtering the image of a map filters the preimage. -/
theorem filterMapComm {α β : Type} (f : α → β) (p : β → Bool) (l : List α) :
    (l.map f).filter p = (l.filter fun a => p (f a)).map f := by
  induction l with
  | nil => rfl
  | cons a l ih => by_cases h : p (f a) <;> simp [List.filter_cons, h, ih]

/-- The walk of `WatchRecursive` yields exactly the directory nodes none of
whose name chain (subtree root included) is filtered by the hidden policy,
each rendered as `parent ++ chain`, preserving visit order. -/
theorem walkDirs_eq_chains (t : FSTree) :
    ∀ (b : Bool) (parent : List String),
      walkDirs b parent t =
        ((dirChains t).filter fun c => !(b && c.any isHiddenName)).map
          (fun c => parent ++ c) := by
  refine @FSTree.rec
    (fun t => ∀ (b : Bool) (parent : List String),
      walkDirs b parent t =
        ((dirChains t).filter fun c => !(b && c.any isHiddenName)).map
          (fun c => parent ++ c))
    (fun l => ∀ (b : Bool) (parent : List String),
      walkForest b parent l =
        ((chainsForest l).filter fun c => !(b && c.any isHiddenName)).map
          (fun c => parent ++ c))
    ?_ ?_ ?_ ?_ t
  · intro n b parent
    simp [walkDirs, dirChains]
  · intro n kids ihk b parent
    cases b with
    | false =>
        simp [walkDirs, dirChains, ihk, List.map_map, Function.comp]
    | true =>
        cases hh : isHiddenName n with
        | true =>
            simp [walkDirs, dirChains, hh, filterMapComm]
        | false =>
            simp [walkDirs, dirChains, hh, filterMapComm, ihk, List.map_map,
              Function.comp]
  · intro b parent
    simp [walkForest, chainsForest]
  · intro t rest iht ihr b parent
    simp [walkForest, chainsForest, List.filter_append, List.map_append, iht, ihr]

/-- Membership in the watch list after one `Watch` of an already-resolved
path: the path is added, nothing else changes. -/
theorem watchResolved_mem (p : Pipeline) (w q : List String) :
    q ∈ (watchResolved p w).1.watches ↔ q ∈ p.watches ∨ q = w := by
  by_cases h : w ∈ p.watches
  · simp only [watchResolved, if_pos h]
    constructor
    · exact Or.inl
    · rintro (hq | rfl)
      · exact hq
      · exact h
  · simp [watchResolved, h]

/-- Membership in the watch list after `Watch`ing every path of a list. -/
theorem watches_foldl_mem (l : List (List String)) :
    ∀ (p : Pipeline) (q : List String),
      q ∈ (l.foldl (fun s w => (watchResolved s w).1) p).watches ↔
        q ∈ p.watches ∨ q ∈ l := by
  induction l with
  | nil => intro p q; simp
  | cons w l ihl =>
      intro p q
      rw [List.foldl_cons, ihl, watchResolved_mem]
      simp [List.mem_cons, or_assoc]

/-- C4: `WatchRecursive` with ignoreHidden=true watches precisely the
previously watched directories plus those directories of the subtree whose
entire name chain from the subtree root is non-hidden — so the root and
every non-hidden descendant are added, while a hidden directory, and every
directory below one, is never added. -/
theorem watchRecursive_hidden_exclusion (p : Pipeline) (parent : List String)
    (t : FSTree) (q : List String) :
    q ∈ (watchRecursive p parent t true).watches ↔
      q ∈ p.watches ∨
        ∃ c, c ∈ dirChains t ∧ c.any isHiddenName = false ∧ q = parent ++ c := by
  simp only [watchRecursive]
  rw [watches_foldl_mem]
  simp only [walkDirs_eq_chains, List.mem_map, List.mem_filter]
  constructor
  · rintro (hq | ⟨c, ⟨hc, hpred⟩, rfl⟩)
    · exact Or.inl hq
    · refine Or.inr ⟨c, hc, ?_, rfl⟩
      simpa using hpred
  · rintro (hq | ⟨c, hc, hpred, rfl⟩)
    · exact Or.inl hq
    · exact Or.inr ⟨c, ⟨hc, by simp [hpred]⟩, rfl⟩

/-- C8: for each dispatched event, exactly the registered workflows whose
`Match(path, op)` holds have `Run` called, once per registration and in
registration order, each receiving a fresh `TaskInfo` whose source path is
the event's path and whose sinks and verbosity come from the pipeline. The
call record equals this filter-map normal form, so the errors the `Run`
calls return influence neither which later workflows run nor the rest of
the batch; batches are dispatched event by event in order. -/
theorem queryWorkflow_fanout (wout werr : String) (verbose : Bool)
    (fpath : List String) (op : Nat) (wfs : List Workflow) :
    queryWorkflow wout werr verbose fpath op wfs =
      (wfs.filter fun w => w.matchFn fpath op).map
        (fun w => (w, mkTaskInfo wout werr verbose fpath,
          w.runFn (mkTaskInfo wout werr verbose fpath))) ∧
    ∀ evs : List FsEvent,
      dispatchBatch wout werr verbose wfs evs =
        (evs.map fun e => queryWorkflow wout werr verbose e.name e.op wfs).flatten := by
  constructor
  · induction wfs with
    | nil => rfl
    | cons wf rest ih =>
        by_cases h : wf.matchFn fpath op
        · simp [queryWorkflow, List.filter_cons, h, ih]
        · simp [queryWorkflow, List.filter_cons, h, ih]
  · intro evs
    induction evs with
    | nil => rfl
    | cons e rest ih => simp [dispatchBatch, ih]

/-- C9: `goPrjTask.Run` honors the task contract — it sets the context's
target to its source, leaves the scratch buffer drained, returns exactly the
command's error status, and the output sink receives the running line first,
then on success "ok" followed by the command's captured output, and on
failure the captured partial output alone (flushed despite the error). -/
theorem goPrjTask_contract (gt : goPrjTask) (goRelSrcDir : List String → String)
    (res : CmdResult) (info : TaskInfo) :
    (goPrjTask.Run gt goRelSrcDir res info).1.target = info.src ∧
    (goPrjTask.Run gt goRelSrcDir res info).1.buf = "" ∧
    (goPrjTask.Run gt goRelSrcDir res info).2 = res.err ∧
    (goPrjTask.Run gt goRelSrcDir res info).1.tout =
      info.tout ++ "Go " ++ titleStr gt.gocmd ++ " ... " ++ goRelSrcDir info.src ++
        "\n" ++ (match res.err with
          | some _ => res.out
          | none => "ok\n" ++ res.out) := by
  cases h : res.err with
  | some e => simp [goPrjTask.Run, h, String.append_assoc]
  | none =>
      have hmerge : ("\n" : String) ++ ("ok\n" ++ res.out) = "\nok\n" ++ res.out := by
        rw [← String.append_assoc]; rfl
      simp [goPrjTask.Run, h, String.append_assoc, hmerge]

/-- C10: `goLintTask.Run` fails not only when golint itself fails but also
when golint succeeds with any output, in which case the error is "FAIL"; it
writes "ok" exactly when the command succeeded silently. The returned error
and the sink contents are characterized for all three cases. -/
theorem goLintTask_contract (lt : goLintTask) (goRelSrcDir : List String → String)
    (res : CmdResult) (info : TaskInfo) :
    ((goLintTask.Run lt goRelSrcDir res info).2 = none ↔
      res.err = none ∧ res.out = "") ∧
    (goLintTask.Run lt goRelSrcDir res info).2 =
      (match res.err with
        | some e => some e
        | none => if res.out = "" then none else some "FAIL") ∧
    (goLintTask.Run lt goRelSrcDir res info).1.tout =
      info.tout ++ lintHeader lt.args (goRelSrcDir info.src) ++
        (if res.err = none ∧ res.out = "" then "ok\n" else res.out) := by
  cases h : res.err with
  | some e => simp [goLintTask.Run, h, String.append_assoc]
  | none =>
      by_cases ho : res.out = ""
      · simp [goLintTask.Run, h, ho, String.append_assoc]
      · have hlen : 0 < res.out.length := by
          rw [← String.length_data]
          exact List.length_pos.mpr (fun hd => ho (String.ext (by simp [hd])))
        simp [goLintTask.Run, h, ho, hlen, String.append_assoc]

end Goauto
